import Mathlib

/-!
Verification development for `workspace/TimeSeries/MakeEnergyPlot.py`.

The script reads a CSV of energy consumption by source, filters rows by
year, generates time-bin edges, fills one histogram per value column
(plus a synthetic `Sum(TWh)` column), sorts the histograms by integral,
stacks them and writes the plots.

The embedding below models the script's data pipeline over exact
arithmetic: timestamps are integers (seconds since the Unix epoch,
computed by a standard proleptic-Gregorian civil-date formula, which is
what Python's `datetime.datetime(..., tzinfo=utc).timestamp()` computes
for the dates this program builds), energy values are rationals, and the
fractional fill offset `dt = 0.05` is the rational `1/20` (any offset
strictly between 0 and 1 lands in the same integer-edged bucket).
The pipeline is instantiated as in `MakeEnergyPlot`, with
`cols_time = ['Year']`, so the time data of a row is its `Year` field.
-/

/-- The `TimeMode` enum of the script (granularity of the bin edges). -/
inductive TimeMode where
  | UNKNOWN
  | YEAR
  | MONTH
  | DAY
  | HOUR
  | MINUTE
  | SECOND
deriving DecidableEq

namespace TimeMode

/-- The integer value of each enum member, as declared in the script. -/
def value : TimeMode → Nat
  | UNKNOWN => 0
  | YEAR => 1
  | MONTH => 2
  | DAY => 3
  | HOUR => 4
  | MINUTE => 5
  | SECOND => 6

/-- The `increments` lookup of the script, `TimeMode.increments[mode]`.
In the source, `increments = {DAY: 86400, HOUR: 3600, MINUTE: 60,
SECOND: 1}` sits in the `enum.Enum` class body, where `DAY` etc. are
still the raw ints 3..6 and a plain dict attribute becomes an enum
*member*: `TimeMode.increments` is a `TimeMode` instance whose value is
`{3: 86400, 4: 3600, 5: 60, 6: 1}`.  Subscripting an enum member raises
`TypeError`, so the lookup yields an increment for no mode; `none`
models that raise. -/
def increments : TimeMode → Option Int := fun _ => none

/-- The `TimeMode.__lt__` comparison of the script: comparison of the enum values. -/
def modeLt (a b : TimeMode) : Prop := a.value < b.value

instance (a b : TimeMode) : Decidable (modeLt a b) :=
  inferInstanceAs (Decidable (a.value < b.value))

end TimeMode

/-- A partial-date record, the argument of `get_timestamp`: missing
components take the defaults the script supplies via `dict.get`. -/
structure TSData where
  year : Int := 1970
  month : Int := 1
  day : Int := 1
  hour : Int := 0
  minute : Int := 0
  second : Int := 0
  zone : Int := 0

/-- Days since 1970-01-01 of the civil date `(y, m, d)` in the proleptic
Gregorian calendar (the standard era/year-of-era formula, flattened).
This models Python's `datetime.date(y, m, d).toordinal()` shifted to the
Unix epoch. -/
def daysFromCivil (y m d : Int) : Int :=
  let y2 := if m ≤ 2 then y - 1 else y
  let mp := (m + 9) % 12
  let doy := (153 * mp + 2) / 5 + d - 1
  365 * y2 + y2 / 4 - y2 / 100 + y2 / 400 + doy - 719468

/-- The `get_timestamp` function of the script: convert a partial date to a Unix
timestamp; the zone offset is given in hours and subtracted. -/
def get_timestamp (t : TSData) : Int :=
  daysFromCivil t.year t.month t.day * 86400
    + t.hour * 3600 + t.minute * 60 + t.second - t.zone * 3600

/-- Python's `range(a, b, step)` for a positive step, as a list of
integers. -/
def intRange (a b step : Int) : List Int :=
  (List.range (Int.toNat ((b - a + step - 1) / step))).map
    (fun (i : Nat) => a + step * (i : Int))

/-- The calendar branch of `generate_bin_edges`: for every year from
`y0` to `y1`, months `1..12` in `MONTH` mode (else month 1 only), the
start-of-month timestamp; then one final edge at January 1 of `y1 + 1`. -/
def calendarEdges (y0 y1 : Int) (mode : TimeMode) : List Int :=
  ((intRange y0 (y1 + 1) 1).flatMap (fun y =>
      (intRange 1 (if mode = TimeMode.MONTH then 13 else 2) 1).map
        (fun m => get_timestamp {year := y, month := m})))
    ++ [get_timestamp {year := y1 + 1}]

/-- The `generate_bin_edges` function of the script, instantiated (as in
`MakeEnergyPlot`) with `cols_time = ['Year']`, so the rows' time data is
the list of their years.  The script sorts the rows and takes the first
and last, i.e. the minimum and maximum year.  The sub-day branch would
step uniformly from `ts_min` to `ts_max + 2 * inc`, but its first
statement, `inc = TimeMode.increments[mode]`, raises `TypeError` for
every mode (see `TimeMode.increments`), so it never returns: the raise
is modelled by the empty edge list, and the `intRange` arm is
unreachable. -/
def generate_bin_edges (years : List Int) (mode : TimeMode) : List Int :=
  match years with
  | [] => []
  | y :: ys =>
    let y0 := ys.foldl min y
    let y1 := ys.foldl max y
    if TimeMode.modeLt mode TimeMode.DAY then
      calendarEdges y0 y1 mode
    else
      match TimeMode.increments mode with
      | some inc =>
          let tsmin := get_timestamp {year := y0}
          let tsmax := get_timestamp {year := y1}
          intRange tsmin (tsmax + inc * 2) inc
      | none => []

/-- A data row: its `Year` and its value in each column (a column absent
from the row reads as 0, matching the spec's sparse example rows). -/
structure RawRow where
  year : Int
  vals : String → Rat

/-- The input table: the value columns (`numpy.setdiff1d` of the CSV
columns minus `Entity`, `Code` and the time columns — already computed,
since CSV parsing is out of scope) and the rows. -/
structure DataFrame where
  colValues : List String
  rows : List RawRow

/-- The name of the synthetic sum column added by `prepare_df`. -/
def sumColName : String := "Sum(TWh)"

/-- The `prepare_df` function of the script: keep the rows with `Year > start_year`,
add a `Sum(TWh)` column holding the row-wise sum of the value columns,
and return the table together with the value columns plus the sum
column. -/
def prepare_df (df : DataFrame) (startYear : Int) : DataFrame × List String :=
  let rows1 := df.rows.filter (fun r => startYear < r.year)
  let rows2 := rows1.map (fun r =>
    { year := r.year
      vals := fun c =>
        if c = sumColName then (df.colValues.map r.vals).sum else r.vals c })
  ({ colValues := df.colValues, rows := rows2 }, df.colValues ++ [sumColName])

/-- The time data of a row under `cols_time = ['Year']`: what
`row[columns_time]` hands to `get_timestamp` in `fill_histogram`. -/
def rowTS (r : RawRow) : TSData := {year := r.year}

/-- The bin search of `TH1.Fill` over the edge list: `some i` when `x` lies in
the half-open bucket `[edges[i], edges[i+1])`, `none` for the underflow
and overflow branches. -/
def findBin (edges : List Int) (x : Rat) : Option Nat :=
  match edges with
  | [] => none
  | [_] => none
  | e0 :: e1 :: rest =>
    if x < (e0 : Rat) then none
    else if x < (e1 : Rat) then some 0
    else (findBin (e1 :: rest) x).map (· + 1)

/-- One `hist.Fill(get_timestamp(row[columns_time]) + dt, row[column])`
call: the bucket containing the offset timestamp receives the row's
value; an out-of-range row leaves the bucket list unchanged (the script
would put it in ROOT's under/overflow bin, outside the bucket list). -/
def fillStep (edges : List Int) (column : String) (dt : Rat)
    (h : List Rat) (r : RawRow) : List Rat :=
  match findBin edges ((get_timestamp (rowTS r) : Rat) + dt) with
  | some b => h.set b ((h.getD b 0) + r.vals column)
  | none => h

/-- The `fill_histogram` function of the script: starting from the all-zero bin
contents, iterate the rows, adding each row's value in `column` into
the bucket selected by its timestamp plus `dt`. -/
def fill_histogram (edges : List Int) (rows : List RawRow) (column : String)
    (dt : Rat) (nbins : Nat) : List Rat :=
  rows.foldl (fillStep edges column dt) (List.replicate nbins 0)

/-- ROOT `TH1.Integral()`: the sum of the bin contents. -/
def Integral (h : List Rat) : Rat := h.sum

/-- The comparison relation of `gen_hstack`'s sort: ascending histogram
integral. -/
def integralLe (a b : String × List Rat) : Prop :=
  Integral a.2 ≤ Integral b.2

instance : DecidableRel integralLe := fun a b =>
  inferInstanceAs (Decidable (Integral a.2 ≤ Integral b.2))

instance : IsTotal (String × List Rat) integralLe :=
  ⟨fun a b => le_total (Integral a.2) (Integral b.2)⟩

instance : IsTrans (String × List Rat) integralLe :=
  ⟨fun _ _ _ h1 h2 => le_trans h1 h2⟩

/-- The `gen_hstack` function of the script: sort the histograms by ascending
integral (Python's `sorted` is a stable sort, embedded as a stable
insertion sort — any two stable sorts by the same key agree); add each
one except `Sum` to the stack, with a fill-style (`F`) legend entry;
finish with a line-style (`L`) legend entry for `dict_h['Sum']`.  A
missing `Sum` key raises a `KeyError`, modelled as `none`. -/
def gen_hstack (dict_h : List (String × List Rat)) :
    Option (List (String × List Rat) × List (String × String)) :=
  let sortedH := dict_h.insertionSort integralLe
  let stack := sortedH.filter (fun p => p.1 ≠ "Sum")
  match List.lookup "Sum" dict_h with
  | some _ => some (stack, stack.map (fun p => (p.1, "F")) ++ [("Sum", "L")])
  | none => none

/-- One pass of Python's `str.replace`: replace every non-overlapping
occurrence of `pat` (scanning left to right) by `rep`; `fuel` bounds the
recursion and is instantiated with the string length. -/
def replaceChars : Nat → List Char → List Char → List Char → List Char
  | 0, s, _, _ => s
  | _ + 1, [], _, _ => []
  | fuel + 1, c :: rest, pat, rep =>
    if pat ≠ [] ∧ pat.isPrefixOf (c :: rest) then
      rep ++ replaceChars fuel ((c :: rest).drop pat.length) pat rep
    else
      c :: replaceChars fuel rest pat rep

/-- Python's `s.replace(pat, rep)` for a non-empty pattern. -/
def pyReplace (s pat rep : String) : String :=
  String.mk (replaceChars s.data.length s.data pat.data rep.data)

/-- The histogram-name cleaning of `MakeEnergyPlot`: strip the
`(TWh, substituted energy)` and `(TWh)` suffixes and all spaces. -/
def cleanName (s : String) : String :=
  pyReplace (pyReplace (pyReplace s "(TWh, substituted energy)" "") "(TWh)" "") " " ""

/-- Assignment `d[k] = v` on an insertion-ordered dictionary (Python
`dict` semantics: overwriting keeps the key's original position). -/
def dictSet (d : List (String × α)) (k : String) (v : α) : List (String × α) :=
  match d with
  | [] => [(k, v)]
  | (k', v') :: rest =>
    if k' = k then (k, v) :: rest else (k', v') :: dictSet rest k v

/-- The computational part of `MakeEnergyPlot`: prepare the table
(default start year 1825), generate yearly bin edges, and fill one
histogram per value column under its cleaned name, with the fill offset
`dt = 0.05`.  Returns the edges and the histogram dictionary. -/
def runPipeline (df : DataFrame) : List Int × List (String × List Rat) :=
  let p := prepare_df df 1825
  let edges := generate_bin_edges (p.1.rows.map RawRow.year) TimeMode.YEAR
  let nbins := edges.length - 1
  let dt : Rat := 1 / 20
  let dict_h := p.2.foldl (fun d icol =>
    dictSet d (cleanName icol) (fill_histogram edges p.1.rows icol dt nbins)) []
  (edges, dict_h)

/-! ### Spec-side descriptions used by the claims -/

/-- Modelled from the spec: the UTC timestamp of the start of month `m`
of year `y` (`m = 1` gives January 1 of `y`). -/
def utcStartOfMonth (y m : Int) : Int := daysFromCivil y m 1 * 86400

/-- Modelled from the spec: the calendar years from `a` to `b`
inclusive. -/
def yearsFromTo (a b : Int) : List Int :=
  (List.range (Int.toNat (b + 1 - a))).map (fun (i : Nat) => a + (i : Int))

/-- Modelled from the spec: the edge description for year/month
granularity — for each year from `y0` to `y1` inclusive, the start of
months 1..12 in month mode (month 1 only otherwise), then one final
edge at January 1 of `y1 + 1`. -/
def specYearMonthEdges (y0 y1 : Int) (mode : TimeMode) : List Int :=
  ((yearsFromTo y0 y1).flatMap (fun yr =>
    (if mode = TimeMode.MONTH then
        [1, 2, 3, 4, 5, 6, 7, 8, 9, 10, 11, 12]
      else [1]).map (fun m => utcStartOfMonth yr m)))
    ++ [utcStartOfMonth (y1 + 1) 1]

/-- Predicate: `x` lies in the half-open bucket `b` of the edge list. -/
def bucketMem (edges : List Int) (b : Nat) (x : Rat) : Prop :=
  b + 1 < edges.length ∧ ((edges.getD b 0 : Int) : Rat) ≤ x
    ∧ x < ((edges.getD (b + 1) 0 : Int) : Rat)

instance (edges : List Int) (b : Nat) (x : Rat) : Decidable (bucketMem edges b x) := by
  unfold bucketMem
  infer_instance

/-- The three example rows of the spec: `{Year:1900, Coal:10}`,
`{Year:1900, Oil:5}`, `{Year:1901, Coal:8}`. -/
def exampleFrame : DataFrame :=
  { colValues := ["Coal", "Oil"]
    rows :=
      [ { year := 1900, vals := fun c => if c = "Coal" then 10 else 0 }
      , { year := 1900, vals := fun c => if c = "Oil" then 5 else 0 }
      , { year := 1901, vals := fun c => if c = "Coal" then 8 else 0 } ] }

/-! ### Minimum/maximum of the year list -/

lemma foldl_min_le_init (ys : List Int) (y : Int) : ys.foldl min y ≤ y := by
  induction ys generalizing y with
  | nil => simp
  | cons a as ih =>
    exact le_trans (ih (min y a)) (min_le_left _ _)

lemma foldl_min_le_mem (ys : List Int) (y : Int) :
    ∀ x ∈ ys, ys.foldl min y ≤ x := by
  induction ys generalizing y with
  | nil => simp
  | cons a as ih =>
    intro x hx
    rcases List.mem_cons.mp hx with rfl | hx
    · exact le_trans (foldl_min_le_init as (min y x)) (min_le_right _ _)
    · exact ih (min y a) x hx

lemma foldl_min_mem (ys : List Int) (y : Int) :
    ys.foldl min y = y ∨ ys.foldl min y ∈ ys := by
  induction ys generalizing y with
  | nil => simp
  | cons a as ih =>
    rcases ih (min y a) with h | h
    · rcases min_cases y a with ⟨hm, _⟩ | ⟨hm, _⟩
      · left; simpa [hm] using h
      · right
        rw [List.foldl_cons, h, hm]
        exact List.mem_cons_self a as
    · right; exact List.mem_cons_of_mem a h

lemma init_le_foldl_max (ys : List Int) (y : Int) : y ≤ ys.foldl max y := by
  induction ys generalizing y with
  | nil => simp
  | cons a as ih =>
    exact le_trans (le_max_left _ _) (ih (max y a))

lemma mem_le_foldl_max (ys : List Int) (y : Int) :
    ∀ x ∈ ys, x ≤ ys.foldl max y := by
  induction ys generalizing y with
  | nil => simp
  | cons a as ih =>
    intro x hx
    rcases List.mem_cons.mp hx with rfl | hx
    · exact le_trans (le_max_right _ _) (init_le_foldl_max as (max y x))
    · exact ih (max y a) x hx

lemma foldl_max_mem (ys : List Int) (y : Int) :
    ys.foldl max y = y ∨ ys.foldl max y ∈ ys := by
  induction ys generalizing y with
  | nil => simp
  | cons a as ih =>
    rcases ih (max y a) with h | h
    · rcases max_cases y a with ⟨hm, _⟩ | ⟨hm, _⟩
      · left; simpa [hm] using h
      · right
        rw [List.foldl_cons, h, hm]
        exact List.mem_cons_self a as
    · right; exact List.mem_cons_of_mem a h

/-! ### Monotonicity of the civil-date timestamp -/

lemma daysFromCivil_month_lt {m m' : Int} (y : Int) (h1 : 1 ≤ m) (h : m < m')
    (h2 : m' ≤ 12) : daysFromCivil y m 1 < daysFromCivil y m' 1 := by
  simp only [daysFromCivil]
  split_ifs <;> omega

lemma daysFromCivil_month_le {m m' : Int} (y : Int) (h1 : 1 ≤ m) (h : m ≤ m')
    (h2 : m' ≤ 12) : daysFromCivil y m 1 ≤ daysFromCivil y m' 1 := by
  simp only [daysFromCivil]
  split_ifs <;> omega

lemma daysFromCivil_lt_next_year {m : Int} (y : Int) (h1 : 1 ≤ m) (h2 : m ≤ 12) :
    daysFromCivil y m 1 < daysFromCivil (y + 1) 1 1 := by
  simp only [daysFromCivil]
  split_ifs <;> omega

lemma daysFromCivil_year_le {y y' : Int} (h : y ≤ y') :
    daysFromCivil y 1 1 ≤ daysFromCivil y' 1 1 := by
  simp only [daysFromCivil]
  norm_num
  omega

/-- Strict monotonicity of the start-of-month day number in the
lexicographic order of (year, month). -/
lemma daysFromCivil_lex {y m y' m' : Int} (hm1 : 1 ≤ m) (hm2 : m ≤ 12)
    (hm1' : 1 ≤ m') (hm2' : m' ≤ 12)
    (h : y < y' ∨ (y = y' ∧ m < m')) :
    daysFromCivil y m 1 < daysFromCivil y' m' 1 := by
  rcases h with h | ⟨rfl, h⟩
  · calc daysFromCivil y m 1 < daysFromCivil (y + 1) 1 1 :=
          daysFromCivil_lt_next_year y hm1 hm2
      _ ≤ daysFromCivil y' 1 1 := daysFromCivil_year_le (by omega)
      _ ≤ daysFromCivil y' m' 1 := daysFromCivil_month_le y' le_rfl hm1' hm2'
  · exact daysFromCivil_month_lt y hm1 h hm2'

/-- Timestamp version of `daysFromCivil_lex` for start-of-month dates. -/
lemma get_timestamp_lex {y m y' m' : Int} (hm1 : 1 ≤ m) (hm2 : m ≤ 12)
    (hm1' : 1 ≤ m') (hm2' : m' ≤ 12)
    (h : y < y' ∨ (y = y' ∧ m < m')) :
    get_timestamp {year := y, month := m} < get_timestamp {year := y', month := m'} := by
  simp only [get_timestamp]
  have := daysFromCivil_lex hm1 hm2 hm1' hm2' h
  omega

lemma get_timestamp_year_le {y y' : Int} (h : y ≤ y') :
    get_timestamp {year := y} ≤ get_timestamp {year := y'} := by
  simp only [get_timestamp]
  have := daysFromCivil_year_le h
  omega

lemma get_timestamp_year_lt {y y' : Int} (h : y < y') :
    get_timestamp {year := y} < get_timestamp {year := y'} := by
  have : get_timestamp {year := y, month := 1} < get_timestamp {year := y', month := 1} :=
    get_timestamp_lex le_rfl (by norm_num) le_rfl (by norm_num) (Or.inl h)
  simpa using this

/-! ### Properties of `intRange` -/

lemma intRange_eq_map (a b s : Int) :
    intRange a b s =
      (List.range (Int.toNat ((b - a + s - 1) / s))).map
        (fun (i : Nat) => a + s * (i : Int)) := rfl

lemma intRange_pairwise {s : Int} (a b : Int) (hs : 0 < s) :
    (intRange a b s).Pairwise (· < ·) := by
  rw [intRange_eq_map]
  refine List.Pairwise.map _ ?_ (List.pairwise_lt_range _)
  intro i j hij
  have : s * (i : Int) < s * (j : Int) := by
    apply mul_lt_mul_of_pos_left _ hs
    exact_mod_cast hij
  linarith

lemma intRange_mem_bounds {a b s x : Int} (hs : 0 < s) (hx : x ∈ intRange a b s) :
    a ≤ x ∧ x < b := by
  simp only [intRange_eq_map, List.mem_map, List.mem_range] at hx
  obtain ⟨i, hi, rfl⟩ := hx
  have h0 : (0 : Int) ≤ s * (i : Int) := mul_nonneg hs.le (Int.ofNat_nonneg i)
  refine ⟨by linarith, ?_⟩
  have hqi : (i : Int) ≤ (b - a + s - 1) / s - 1 := by omega
  have hdm := Int.ediv_add_emod (b - a + s - 1) s
  have hr0 : 0 ≤ (b - a + s - 1) % s := Int.emod_nonneg _ (ne_of_gt hs)
  have hmul : s * (i : Int) ≤ s * ((b - a + s - 1) / s - 1) :=
    mul_le_mul_of_nonneg_left hqi hs.le
  have hexp : s * ((b - a + s - 1) / s - 1) = s * ((b - a + s - 1) / s) - s := by ring
  linarith

lemma intRange_count_pos {a b s : Int} (hs : 0 < s) (hab : a < b) :
    1 ≤ (b - a + s - 1) / s := by
  have hdm := Int.ediv_add_emod (b - a + s - 1) s
  have hrs : (b - a + s - 1) % s < s := Int.emod_lt_of_pos _ hs
  by_contra hq
  push_neg at hq
  have hq0 : (b - a + s - 1) / s ≤ 0 := by omega
  nlinarith

lemma intRange_head {a b s : Int} (hs : 0 < s) (hab : a < b) :
    (intRange a b s).head? = some a := by
  obtain ⟨k, hk⟩ : ∃ k, Int.toNat ((b - a + s - 1) / s) = k + 1 :=
    ⟨Int.toNat ((b - a + s - 1) / s) - 1, by
      have := intRange_count_pos hs hab; omega⟩
  rw [intRange_eq_map, hk, List.range_succ_eq_map]
  simp

lemma intRange_getLast {a b s : Int} (hs : 0 < s) (hab : a < b) :
    ∃ l, (intRange a b s).getLast? = some l ∧ b - s ≤ l ∧ l < b := by
  obtain ⟨k, hk⟩ : ∃ k, Int.toNat ((b - a + s - 1) / s) = k + 1 :=
    ⟨Int.toNat ((b - a + s - 1) / s) - 1, by
      have := intRange_count_pos hs hab; omega⟩
  refine ⟨a + s * (k : Int), ?_, ?_, ?_⟩
  · rw [intRange_eq_map, hk, List.range_succ, List.map_append]
    simp
  · have hk' : (k : Int) = (b - a + s - 1) / s - 1 := by
      have := intRange_count_pos hs hab; omega
    have hdm := Int.ediv_add_emod (b - a + s - 1) s
    have hrs : (b - a + s - 1) % s < s := Int.emod_lt_of_pos _ hs
    have hexp : s * ((b - a + s - 1) / s - 1) = s * ((b - a + s - 1) / s) - s := by ring
    rw [hk', hexp]
    linarith
  · have hmem : a + s * (k : Int) ∈ intRange a b s := by
      rw [intRange_eq_map]
      exact List.mem_map.mpr ⟨k, List.mem_range.mpr (by omega), rfl⟩
    exact (intRange_mem_bounds hs hmem).2

lemma intRange_ne_nil {a b s : Int} (hs : 0 < s) (hab : a < b) :
    intRange a b s ≠ [] := by
  intro hnil
  have := intRange_head hs hab
  rw [hnil] at this
  simp at this

lemma mem_intRange_one {a b x : Int} (ha : a ≤ x) (hx : x < b) :
    x ∈ intRange a b 1 := by
  rw [intRange_eq_map]
  refine List.mem_map.mpr ⟨(x - a).toNat, List.mem_range.mpr ?_, by omega⟩
  omega

/-! ### Properties of the calendar edges -/

lemma months_mem_bounds {mode : TimeMode} {m : Int}
    (hm : m ∈ intRange 1 (if mode = TimeMode.MONTH then 13 else 2) 1) :
    1 ≤ m ∧ m ≤ 12 := by
  have := intRange_mem_bounds (by norm_num) hm
  split_ifs at this <;> omega

lemma head?_flatMap {α β : Type} {l : List α} {f : α → List β} {x : α} {y : β}
    (hl : l.head? = some x) (hx : (f x).head? = some y) :
    (l.flatMap f).head? = some y := by
  cases l with
  | nil => simp at hl
  | cons a as =>
    obtain rfl : a = x := by simpa using hl
    cases hfa : f a with
    | nil => rw [hfa] at hx; simp at hx
    | cons b bs =>
      rw [hfa] at hx
      simp only [List.head?_cons, Option.some.injEq] at hx
      subst hx
      rw [List.flatMap_cons, hfa]
      simp

lemma calendarEdges_flat_elem {y0 y1 : Int} {mode : TimeMode} {t : Int}
    (ht : t ∈ (intRange y0 (y1 + 1) 1).flatMap (fun y =>
      (intRange 1 (if mode = TimeMode.MONTH then 13 else 2) 1).map
        (fun m => get_timestamp {year := y, month := m}))) :
    ∃ y m, y0 ≤ y ∧ y ≤ y1 ∧ 1 ≤ m ∧ m ≤ 12 ∧
      t = get_timestamp {year := y, month := m} := by
  obtain ⟨y, hy, ht⟩ := List.mem_flatMap.mp ht
  obtain ⟨m, hm, rfl⟩ := List.mem_map.mp ht
  have hyb := intRange_mem_bounds (by norm_num) hy
  have hmb := months_mem_bounds hm
  exact ⟨y, m, by omega, by omega, hmb.1, hmb.2, rfl⟩

lemma calendarEdges_pairwise (y0 y1 : Int) (mode : TimeMode) :
    (calendarEdges y0 y1 mode).Pairwise (· < ·) := by
  unfold calendarEdges
  rw [List.pairwise_append]
  refine ⟨?_, List.pairwise_singleton _ _, ?_⟩
  · show List.Pairwise _ ((List.map _ (intRange y0 (y1 + 1) 1)).flatten)
    rw [List.pairwise_flatten]
    constructor
    · intro l' hl'
      obtain ⟨y, _, rfl⟩ := List.mem_map.mp hl'
      refine List.Pairwise.map _ (fun a b h => h) ?_
      refine List.Pairwise.imp_of_mem ?_ (intRange_pairwise 1 _ (by norm_num))
      intro a b ha hb hab
      have hA := months_mem_bounds ha
      have hB := months_mem_bounds hb
      exact get_timestamp_lex hA.1 hA.2 hB.1 hB.2 (Or.inr ⟨rfl, hab⟩)
    · refine List.Pairwise.map _ ?_ (intRange_pairwise y0 (y1 + 1) (by norm_num))
      intro y y' hyy' t ht t' ht'
      obtain ⟨m, hm, rfl⟩ := List.mem_map.mp ht
      obtain ⟨m', hm', rfl⟩ := List.mem_map.mp ht'
      have hA := months_mem_bounds hm
      have hB := months_mem_bounds hm'
      exact get_timestamp_lex hA.1 hA.2 hB.1 hB.2 (Or.inl hyy')
  · intro t ht t' ht'
    obtain ⟨y, m, hy0, hy1, hm1, hm2, rfl⟩ := calendarEdges_flat_elem ht
    obtain rfl : t' = get_timestamp {year := y1 + 1} := by simpa using ht'
    exact get_timestamp_lex hm1 hm2 le_rfl (by norm_num) (Or.inl (by omega))

lemma calendarEdges_head {y0 y1 : Int} (mode : TimeMode) (h : y0 ≤ y1) :
    (calendarEdges y0 y1 mode).head? = some (get_timestamp {year := y0}) := by
  unfold calendarEdges
  rw [List.head?_append]
  have h1 : (intRange y0 (y1 + 1) 1).head? = some y0 :=
    intRange_head (by norm_num) (by omega)
  have hm : (intRange 1 (if mode = TimeMode.MONTH then 13 else 2) 1).head? = some 1 :=
    intRange_head (by norm_num) (by split_ifs <;> norm_num)
  have hblock :
      ((intRange 1 (if mode = TimeMode.MONTH then 13 else 2) 1).map
        (fun m => get_timestamp {year := y0, month := m})).head?
        = some (get_timestamp {year := y0, month := 1}) := by
    rw [List.head?_map, hm]
    rfl
  rw [head?_flatMap h1 hblock]
  rfl

lemma calendarEdges_getLast (y0 y1 : Int) (mode : TimeMode) :
    (calendarEdges y0 y1 mode).getLast? = some (get_timestamp {year := y1 + 1}) :=
  List.getLast?_concat _

/-! ### Properties of `generate_bin_edges` -/

lemma generate_bin_edges_calendar {y : Int} {ys : List Int} {mode : TimeMode}
    (hmode : TimeMode.modeLt mode TimeMode.DAY) :
    generate_bin_edges (y :: ys) mode
      = calendarEdges (ys.foldl min y) (ys.foldl max y) mode := by
  simp only [generate_bin_edges]
  rw [if_pos hmode]

/-- In the sub-day modes `generate_bin_edges` produces nothing: the
`TimeMode.increments[mode]` lookup raises before any edge is built. -/
lemma generate_bin_edges_subday {y : Int} {ys : List Int} {mode : TimeMode}
    (hmode : ¬ TimeMode.modeLt mode TimeMode.DAY) :
    generate_bin_edges (y :: ys) mode = [] := by
  simp only [generate_bin_edges]
  rw [if_neg hmode]
  rfl

/-- The bundle of edge properties of the calendar branch (the only
branch that returns): strictly increasing edges, first edge at or below
every observed timestamp, last edge strictly above every observed
timestamp. -/
lemma generate_bin_edges_bounds (y : Int) (ys : List Int) (mode : TimeMode)
    (hmode : TimeMode.modeLt mode TimeMode.DAY) :
    (generate_bin_edges (y :: ys) mode).Pairwise (· < ·) ∧
    (∃ e0, (generate_bin_edges (y :: ys) mode).head? = some e0 ∧
      ∀ z ∈ y :: ys, e0 ≤ get_timestamp {year := z}) ∧
    (∃ el, (generate_bin_edges (y :: ys) mode).getLast? = some el ∧
      ∀ z ∈ y :: ys, get_timestamp {year := z} < el) := by
  have hy0le : ∀ z ∈ y :: ys, ys.foldl min y ≤ z := by
    intro z hz
    rcases List.mem_cons.mp hz with rfl | hz
    · exact foldl_min_le_init ys z
    · exact foldl_min_le_mem ys y z hz
  have hley1 : ∀ z ∈ y :: ys, z ≤ ys.foldl max y := by
    intro z hz
    rcases List.mem_cons.mp hz with rfl | hz
    · exact init_le_foldl_max ys z
    · exact mem_le_foldl_max ys y z hz
  have h01 : ys.foldl min y ≤ ys.foldl max y :=
    le_trans (hy0le y (List.mem_cons_self y ys)) (hley1 y (List.mem_cons_self y ys))
  rw [generate_bin_edges_calendar hmode]
  refine ⟨calendarEdges_pairwise _ _ _,
    ⟨_, calendarEdges_head mode h01, ?_⟩,
    ⟨_, calendarEdges_getLast _ _ _, ?_⟩⟩
  · intro z hz
    exact get_timestamp_year_le (hy0le z hz)
  · intro z hz
    exact get_timestamp_year_lt (by have := hley1 z hz; omega)

lemma get_timestamp_month_eq_utc (y m : Int) :
    get_timestamp {year := y, month := m} = utcStartOfMonth y m := by
  simp [get_timestamp, utcStartOfMonth]

/-! ### Properties of `findBin` and the histogram fill -/

lemma findBin_sound {edges : List Int} {x : Rat} {i : Nat}
    (h : findBin edges x = some i) : bucketMem edges i x := by
  induction edges generalizing i with
  | nil => simp [findBin] at h
  | cons e0 rest ih =>
    cases rest with
    | nil => simp [findBin] at h
    | cons e1 rest' =>
      rw [findBin] at h
      split_ifs at h with h0 h1
      · obtain rfl : (0 : Nat) = i := by simpa using h
        refine ⟨by simp, ?_, ?_⟩
        · simpa [List.getD_cons_zero] using not_lt.mp h0
        · simpa [List.getD_cons_succ, List.getD_cons_zero] using h1
      · obtain ⟨a, ha, rfl⟩ := Option.map_eq_some'.mp h
        obtain ⟨hlen, hlo, hhi⟩ := ih ha
        exact ⟨by simpa using Nat.succ_lt_succ hlen,
          by simpa [List.getD_cons_succ] using hlo,
          by simpa [List.getD_cons_succ] using hhi⟩

lemma findBin_isSome {x : Rat} :
    ∀ {edges : List Int},
      (∃ e0, edges.head? = some e0 ∧ ((e0 : Int) : Rat) ≤ x) →
      (∃ el, edges.getLast? = some el ∧ x < ((el : Int) : Rat)) →
      ∃ i, findBin edges x = some i := by
  intro edges
  induction edges with
  | nil => rintro ⟨e0, he0, _⟩ _; simp at he0
  | cons a rest ih =>
    rintro ⟨e0, he0, hx0⟩ ⟨el, hel, hxl⟩
    obtain rfl : a = e0 := by simpa using he0
    cases rest with
    | nil =>
      obtain rfl : a = el := by simpa using hel
      exact absurd (lt_of_le_of_lt hx0 hxl) (lt_irrefl _)
    | cons e1 rest' =>
      rw [findBin]
      by_cases h0 : x < (a : Rat)
      · exact absurd h0 (not_lt.mpr hx0)
      · rw [if_neg h0]
        by_cases h1 : x < (e1 : Rat)
        · exact ⟨0, by rw [if_pos h1]⟩
        · rw [if_neg h1]
          obtain ⟨j, hj⟩ := ih ⟨e1, by simp, not_lt.mp h1⟩
            ⟨el, by rw [← List.getLast?_cons_cons]; exact hel, hxl⟩
          exact ⟨j + 1, by rw [hj]; rfl⟩

lemma getD_lt_getD {edges : List Int} (hp : edges.Pairwise (· < ·)) {a b : Nat}
    (hab : a < b) (hb : b < edges.length) :
    edges.getD a 0 < edges.getD b 0 := by
  have ha : a < edges.length := lt_trans hab hb
  rw [List.getD_eq_getElem?_getD, List.getD_eq_getElem?_getD,
    List.getElem?_eq_getElem ha, List.getElem?_eq_getElem hb]
  exact List.pairwise_iff_getElem.mp hp a b ha hb hab

lemma bucketMem_unique {edges : List Int} (hp : edges.Pairwise (· < ·))
    {x : Rat} {i j : Nat} (hi : bucketMem edges i x) (hj : bucketMem edges j x) :
    i = j := by
  have key : ∀ {a b : Nat}, a < b →
      bucketMem edges a x → bucketMem edges b x → False := by
    intro a b hab ha hb
    obtain ⟨hal, _, hax⟩ := ha
    obtain ⟨hbl, hbx, _⟩ := hb
    have h1 : edges.getD (a + 1) 0 ≤ edges.getD b 0 := by
      rcases Nat.lt_or_ge (a + 1) b with hl | hgE
      · exact le_of_lt (getD_lt_getD hp hl (by omega))
      · have : a + 1 = b := by omega
        rw [this]
    have h2 : ((edges.getD (a + 1) 0 : Int) : Rat) ≤ ((edges.getD b 0 : Int) : Rat) := by
      exact_mod_cast h1
    linarith
  rcases Nat.lt_trichotomy i j with h | h | h
  · exact absurd (key h hi hj) not_false
  · exact h
  · exact absurd (key h hj hi) not_false

lemma fillStep_some {edges : List Int} {c : String} {dt : Rat} {h : List Rat}
    {r : RawRow} {b : Nat}
    (hfb : findBin edges ((get_timestamp (rowTS r) : Rat) + dt) = some b) :
    fillStep edges c dt h r = h.set b ((h.getD b 0) + r.vals c) := by
  simp [fillStep, hfb]

lemma fillStep_none {edges : List Int} {c : String} {dt : Rat} {h : List Rat}
    {r : RawRow}
    (hfb : findBin edges ((get_timestamp (rowTS r) : Rat) + dt) = none) :
    fillStep edges c dt h r = h := by
  simp [fillStep, hfb]

lemma fillStep_length (edges : List Int) (c : String) (dt : Rat)
    (h : List Rat) (r : RawRow) :
    (fillStep edges c dt h r).length = h.length := by
  unfold fillStep
  split <;> simp

lemma getD_set_self {h : List Rat} {b : Nat} {w : Rat} (hb : b < h.length) :
    (h.set b w).getD b 0 = w := by
  rw [List.getD_eq_getElem?_getD, List.getElem?_set_self hb]
  rfl

lemma getD_set_ne {h : List Rat} {b b' : Nat} {w : Rat} (hne : b' ≠ b) :
    (h.set b' w).getD b 0 = h.getD b 0 := by
  rw [List.getD_eq_getElem?_getD, List.getElem?_set_ne hne,
    ← List.getD_eq_getElem?_getD]

lemma getD_replicate_zero (n b : Nat) : (List.replicate n (0 : Rat)).getD b 0 = 0 := by
  rcases Nat.lt_or_ge b n with hlt | hge
  · rw [List.getD_eq_getElem?_getD,
      List.getElem?_eq_getElem (by simpa using hlt)]
    simp [List.getElem_replicate]
  · rw [List.getD_eq_getElem?_getD, List.getElem?_eq_none (by simpa using hge)]
    rfl

/-- The content of bucket `b` after the fill fold: the initial content
plus the sum of the values of the rows whose timestamp selects `b`. -/
lemma fill_foldl_getD (edges : List Int) (c : String) (dt : Rat) (rows : List RawRow) :
    ∀ (h : List Rat), edges.length ≤ h.length + 1 → ∀ (b : Nat),
      (rows.foldl (fillStep edges c dt) h).getD b 0
        = h.getD b 0
          + ((rows.filter (fun r =>
              findBin edges ((get_timestamp (rowTS r) : Rat) + dt) == some b)).map
              (fun r => r.vals c)).sum := by
  induction rows with
  | nil =>
    intro h hlen b
    simp
  | cons r rest ih =>
    intro h hlen b
    rw [List.foldl_cons, List.filter_cons]
    cases hfb : findBin edges ((get_timestamp (rowTS r) : Rat) + dt) with
    | none =>
      rw [fillStep_none hfb, if_neg (by simp [hfb]), ih h hlen b]
    | some b' =>
      have hb'len : b' < h.length := by
        have := (findBin_sound hfb).1
        omega
      rw [fillStep_some hfb]
      have hlen' : edges.length ≤ (h.set b' ((h.getD b' 0) + r.vals c)).length + 1 := by
        rw [List.length_set]
        exact hlen
      rcases eq_or_ne b' b with rfl | hne
      · rw [if_pos (by simp), List.map_cons, List.sum_cons,
          ih _ hlen' b', getD_set_self hb'len]
        ring
      · rw [if_neg (by simp [hne]), ih _ hlen' b, getD_set_ne hne]

/-- The per-bucket formula for `fill_histogram` at the pipeline's bin
count `edges.length - 1`. -/
lemma fill_histogram_getD (edges : List Int) (rows : List RawRow) (c : String)
    (dt : Rat) (b : Nat) :
    (fill_histogram edges rows c dt (edges.length - 1)).getD b 0
      = ((rows.filter (fun r =>
          findBin edges ((get_timestamp (rowTS r) : Rat) + dt) == some b)).map
          (fun r => r.vals c)).sum := by
  unfold fill_histogram
  rw [fill_foldl_getD edges c dt rows _ (by simp; omega) b, getD_replicate_zero]
  ring

/-! ### Sum-exchange helpers -/

lemma sum_map_add {α : Type} (l : List α) (f g : α → Rat) :
    (l.map (fun x => f x + g x)).sum = (l.map f).sum + (l.map g).sum := by
  induction l with
  | nil => simp
  | cons a as ih =>
    simp only [List.map_cons, List.sum_cons, ih]
    ring

lemma sum_exchange {α β : Type} (S : List α) (cols : List β) (F : α → β → Rat) :
    (cols.map (fun c => (S.map (fun r => F r c)).sum)).sum
      = (S.map (fun r => (cols.map (fun c => F r c)).sum)).sum := by
  induction cols with
  | nil => simp
  | cons c cs ih =>
    simp only [List.map_cons, List.sum_cons]
    rw [sum_map_add, ih]

/-! ### Shape of `prepare_df` -/

lemma prepare_df_rows (df : DataFrame) (sy : Int) :
    (prepare_df df sy).1.rows
      = (df.rows.filter (fun r => sy < r.year)).map (fun r =>
          { year := r.year
            vals := fun c =>
              if c = sumColName then (df.colValues.map r.vals).sum
              else r.vals c }) := rfl

lemma prepare_df_cols (df : DataFrame) (sy : Int) :
    (prepare_df df sy).2 = df.colValues ++ [sumColName] := rfl

/-! ### Claims -/

/-- Claim C1: for every filtered input dataset and every bucket, the sum
over all (non-Sum) value columns of that bucket's accumulated value
equals the bucket's value in the histogram of the synthetic sum column
(exact equality in the rational model; the spec allows floating-point
rounding). -/
theorem spec_c1 (df : DataFrame) (startYear : Int) (edges : List Int) (dt : Rat)
    (b : Nat) (hs : sumColName ∉ df.colValues) :
    (df.colValues.map (fun c =>
      (fill_histogram edges (prepare_df df startYear).1.rows c dt
        (edges.length - 1)).getD b 0)).sum
    = (fill_histogram edges (prepare_df df startYear).1.rows sumColName dt
        (edges.length - 1)).getD b 0 := by
  rw [fill_histogram_getD]
  rw [List.map_congr_left (fun c _ => fill_histogram_getD edges _ c dt b)]
  rw [sum_exchange]
  refine congrArg List.sum (List.map_congr_left ?_)
  intro r' hr'
  have hr'mem : r' ∈ (prepare_df df startYear).1.rows := (List.mem_filter.mp hr').1
  rw [prepare_df_rows] at hr'mem
  obtain ⟨r, hr, rfl⟩ := List.mem_map.mp hr'mem
  show (df.colValues.map (fun c =>
      if c = sumColName then (df.colValues.map r.vals).sum else r.vals c)).sum
    = if sumColName = sumColName then (df.colValues.map r.vals).sum
      else r.vals sumColName
  rw [if_pos rfl]
  refine congrArg List.sum (List.map_congr_left ?_)
  intro c hc
  rw [if_neg]
  intro hceq
  exact hs (hceq ▸ hc)

/-- Claim C1 witness: a concrete dataset with two value columns. -/
theorem spec_c1_witness :
    sumColName ∉ (["Coal", "Oil"] : List String) ∧
    ((["Coal", "Oil"] : List String).map (fun c =>
      (fill_histogram [0, 100]
        (prepare_df
          { colValues := ["Coal", "Oil"]
            rows := [{ year := 1970,
                       vals := fun c => if c = "Coal" then 10 else 0 }] } 1825).1.rows
        c (1 / 20) (([0, 100] : List Int).length - 1)).getD 0 0)).sum
    = (fill_histogram [0, 100]
        (prepare_df
          { colValues := ["Coal", "Oil"]
            rows := [{ year := 1970,
                       vals := fun c => if c = "Coal" then 10 else 0 }] } 1825).1.rows
        sumColName (1 / 20) (([0, 100] : List Int).length - 1)).getD 0 0 :=
  ⟨by decide,
    spec_c1
      { colValues := ["Coal", "Oil"]
        rows := [{ year := 1970, vals := fun c => if c = "Coal" then 10 else 0 }] }
      1825 [0, 100] (1 / 20) 0 (by decide)⟩

/-- Claim C2 counterexample: for the one-row dataset with year 1900 in
year mode, the first generated edge equals the minimum observed
timestamp, so it is not strictly below it. -/
theorem spec_c2_cex :
    generate_bin_edges [1900] TimeMode.YEAR = [-2208988800, -2177452800] ∧
    get_timestamp {year := 1900} = -2208988800 ∧
    ¬ ((-2208988800 : Int) < -2208988800) := by
  refine ⟨by decide, by decide, by omega⟩

/-- Claim C2 (amended): for every non-empty year list, in the modes
below `DAY` — the only ones in which `generate_bin_edges` returns at
all, since the sub-day branch raises a `TypeError` at the
`TimeMode.increments[mode]` lookup — the generated edges are strictly
increasing, the first edge is at or below every observed timestamp (it
equals the minimum one, not strictly below it), and the last edge is
strictly above every observed timestamp; in the sub-day modes no edge
sequence is produced. -/
theorem spec_c2 (years : List Int) (mode : TimeMode) (h : years ≠ []) :
    (TimeMode.modeLt mode TimeMode.DAY →
      (generate_bin_edges years mode).Pairwise (· < ·) ∧
      (∃ e0, (generate_bin_edges years mode).head? = some e0 ∧
        ∀ z ∈ years, e0 ≤ get_timestamp {year := z}) ∧
      (∃ el, (generate_bin_edges years mode).getLast? = some el ∧
        ∀ z ∈ years, get_timestamp {year := z} < el)) ∧
    (¬ TimeMode.modeLt mode TimeMode.DAY →
      generate_bin_edges years mode = []) := by
  cases years with
  | nil => exact absurd rfl h
  | cons y ys =>
    exact ⟨generate_bin_edges_bounds y ys mode,
      fun hmode => generate_bin_edges_subday hmode⟩

/-- Claim C2 witness. -/
theorem spec_c2_witness :
    (TimeMode.modeLt TimeMode.YEAR TimeMode.DAY →
      (generate_bin_edges [1900] TimeMode.YEAR).Pairwise (· < ·) ∧
      (∃ e0, (generate_bin_edges [1900] TimeMode.YEAR).head? = some e0 ∧
        ∀ z ∈ ([1900] : List Int), e0 ≤ get_timestamp {year := z}) ∧
      (∃ el, (generate_bin_edges [1900] TimeMode.YEAR).getLast? = some el ∧
        ∀ z ∈ ([1900] : List Int), get_timestamp {year := z} < el)) ∧
    (¬ TimeMode.modeLt TimeMode.YEAR TimeMode.DAY →
      generate_bin_edges [1900] TimeMode.YEAR = []) :=
  spec_c2 [1900] TimeMode.YEAR (by decide)

/-- Claim C4 counterexample: in `UNKNOWN` mode the one-row dataset with
year 1900 produces a two-edge sequence, not a degenerate single-point
sequence. -/
theorem spec_c4_cex :
    generate_bin_edges [1900] TimeMode.UNKNOWN = [-2208988800, -2177452800] ∧
    (generate_bin_edges [1900] TimeMode.UNKNOWN).length ≠ 1 := by
  refine ⟨by decide, by decide⟩

/-- Claim C4 (amended): the `UNKNOWN` mode is not a degenerate
fallback: `UNKNOWN < DAY`, so it takes the calendar branch and produces
exactly the `YEAR`-mode edges. -/
theorem spec_c4 (years : List Int) :
    generate_bin_edges years TimeMode.UNKNOWN
      = generate_bin_edges years TimeMode.YEAR := by
  cases years <;> rfl

/-- Claim C5 counterexample: a row whose year equals the start year
(1825, "not below" it) is filtered out by `prepare_df`. -/
theorem spec_c5_cex :
    (DataFrame.rows
      { colValues := ["Coal"]
        rows := [{ year := 1825, vals := fun _ => (1 : Rat) }] }).map RawRow.year
      = [1825] ∧
    ¬ ((1825 : Int) < 1825) ∧
    ((prepare_df
      { colValues := ["Coal"]
        rows := [{ year := 1825, vals := fun _ => (1 : Rat) }] } 1825).1.rows.map
        RawRow.year) = [] := by
  refine ⟨by decide, by omega, by decide⟩

/-- Claim C5 (amended): the loader keeps exactly the rows whose `Year`
is strictly greater than the start year; a row with `Year` equal to the
start year is dropped. -/
theorem spec_c5 (df : DataFrame) (startYear : Int) :
    (prepare_df df startYear).1.rows.map RawRow.year
      = (df.rows.filter (fun r => startYear < r.year)).map RawRow.year ∧
    ∀ r ∈ (prepare_df df startYear).1.rows, startYear < r.year := by
  constructor
  · rw [prepare_df_rows, List.map_map]
    rfl
  · intro r hr
    rw [prepare_df_rows] at hr
    obtain ⟨r0, hr0, rfl⟩ := List.mem_map.mp hr
    exact of_decide_eq_true (List.mem_filter.mp hr0).2

lemma intRange_eq_yearsFromTo (y0 y1 : Int) :
    intRange y0 (y1 + 1) 1 = yearsFromTo y0 y1 := by
  unfold intRange yearsFromTo
  have harg : y1 + 1 - y0 + 1 - 1 = y1 + 1 - y0 := by ring
  rw [harg, Int.ediv_one]
  exact List.map_congr_left (fun i _ => by ring)

lemma months_map_year (yr : Int) :
    (intRange 1 (if TimeMode.YEAR = TimeMode.MONTH then 13 else 2) 1).map
      (fun m => get_timestamp {year := yr, month := m})
    = (if TimeMode.YEAR = TimeMode.MONTH then
        [1, 2, 3, 4, 5, 6, 7, 8, 9, 10, 11, 12]
      else [1]).map (fun m => utcStartOfMonth yr m) := by
  show [get_timestamp {year := yr, month := 1}] = [utcStartOfMonth yr 1]
  rw [get_timestamp_month_eq_utc]

lemma months_map_month (yr : Int) :
    (intRange 1 (if TimeMode.MONTH = TimeMode.MONTH then 13 else 2) 1).map
      (fun m => get_timestamp {year := yr, month := m})
    = (if TimeMode.MONTH = TimeMode.MONTH then
        [1, 2, 3, 4, 5, 6, 7, 8, 9, 10, 11, 12]
      else [1]).map (fun m => utcStartOfMonth yr m) := by
  show [get_timestamp {year := yr, month := 1}, get_timestamp {year := yr, month := 2},
      get_timestamp {year := yr, month := 3}, get_timestamp {year := yr, month := 4},
      get_timestamp {year := yr, month := 5}, get_timestamp {year := yr, month := 6},
      get_timestamp {year := yr, month := 7}, get_timestamp {year := yr, month := 8},
      get_timestamp {year := yr, month := 9}, get_timestamp {year := yr, month := 10},
      get_timestamp {year := yr, month := 11}, get_timestamp {year := yr, month := 12}]
    = [utcStartOfMonth yr 1, utcStartOfMonth yr 2, utcStartOfMonth yr 3,
      utcStartOfMonth yr 4, utcStartOfMonth yr 5, utcStartOfMonth yr 6,
      utcStartOfMonth yr 7, utcStartOfMonth yr 8, utcStartOfMonth yr 9,
      utcStartOfMonth yr 10, utcStartOfMonth yr 11, utcStartOfMonth yr 12]
  simp only [get_timestamp_month_eq_utc]

lemma calendarEdges_eq_spec (y0 y1 : Int) {mode : TimeMode}
    (hm : mode = TimeMode.YEAR ∨ mode = TimeMode.MONTH) :
    calendarEdges y0 y1 mode = specYearMonthEdges y0 y1 mode := by
  unfold calendarEdges specYearMonthEdges
  rw [intRange_eq_yearsFromTo]
  have hfinal : get_timestamp {year := y1 + 1} = utcStartOfMonth (y1 + 1) 1 := by
    simp [get_timestamp, utcStartOfMonth]
  rcases hm with rfl | rfl
  · rw [congrArg (List.flatMap (yearsFromTo y0 y1)) (funext months_map_year), hfinal]
  · rw [congrArg (List.flatMap (yearsFromTo y0 y1)) (funext months_map_month), hfinal]

/-- Claim C6: in year or month granularity the edges are: for each
calendar year from the minimum observed year to the maximum observed
year inclusive, the UTC start-of-month timestamps of months 1..12 in
month mode (month 1 only in year mode), then one final edge at January
1 (UTC) of the maximum year plus one. -/
theorem spec_c6 (years : List Int) (mode : TimeMode) (h : years ≠ [])
    (hm : mode = TimeMode.YEAR ∨ mode = TimeMode.MONTH) :
    ∃ y0 y1, y0 ∈ years ∧ y1 ∈ years ∧ (∀ z ∈ years, y0 ≤ z ∧ z ≤ y1) ∧
      generate_bin_edges years mode = specYearMonthEdges y0 y1 mode := by
  cases years with
  | nil => exact absurd rfl h
  | cons y ys =>
    refine ⟨ys.foldl min y, ys.foldl max y, ?_, ?_, ?_, ?_⟩
    · rcases foldl_min_mem ys y with he | hmem
      · rw [he]; exact List.mem_cons_self _ _
      · exact List.mem_cons_of_mem _ hmem
    · rcases foldl_max_mem ys y with he | hmem
      · rw [he]; exact List.mem_cons_self _ _
      · exact List.mem_cons_of_mem _ hmem
    · intro z hz
      rcases List.mem_cons.mp hz with rfl | hz'
      · exact ⟨foldl_min_le_init ys z, init_le_foldl_max ys z⟩
      · exact ⟨foldl_min_le_mem ys y z hz', mem_le_foldl_max ys y z hz'⟩
    · have hmode : TimeMode.modeLt mode TimeMode.DAY := by
        rcases hm with rfl | rfl <;> decide
      rw [generate_bin_edges_calendar hmode]
      exact calendarEdges_eq_spec _ _ hm

/-- Claim C6 witness. -/
theorem spec_c6_witness :
    ∃ y0 y1, y0 ∈ ([2000] : List Int) ∧ y1 ∈ ([2000] : List Int) ∧
      (∀ z ∈ ([2000] : List Int), y0 ≤ z ∧ z ≤ y1) ∧
      generate_bin_edges [2000] TimeMode.MONTH
        = specYearMonthEdges y0 y1 TimeMode.MONTH :=
  spec_c6 [2000] TimeMode.MONTH (by decide) (Or.inr rfl)

/-- Claim C3: every year occurring in the filtered dataset lands,
after the fill offset `dt = 1/20`, in exactly one half-open bucket of
the pipeline's edges, and `TH1.Fill`'s out-of-range branch is
unreachable for it. -/
theorem spec_c3 (df : DataFrame) (y : Int)
    (hy : y ∈ df.rows.map RawRow.year) (hfy : 1825 < y) :
    ∃ b, findBin (runPipeline df).1 ((get_timestamp {year := y} : Rat) + 1 / 20) = some b ∧
      bucketMem (runPipeline df).1 b ((get_timestamp {year := y} : Rat) + 1 / 20) ∧
      ∀ b', bucketMem (runPipeline df).1 b'
        ((get_timestamp {year := y} : Rat) + 1 / 20) → b' = b := by
  have hedges : (runPipeline df).1
      = generate_bin_edges ((prepare_df df 1825).1.rows.map RawRow.year) TimeMode.YEAR := rfl
  have hymem : y ∈ (prepare_df df 1825).1.rows.map RawRow.year := by
    rw [prepare_df_rows, List.map_map]
    obtain ⟨r, hr, rfl⟩ := List.mem_map.mp hy
    refine List.mem_map.mpr ⟨r, List.mem_filter.mpr ⟨hr, ?_⟩, rfl⟩
    exact decide_eq_true hfy
  rw [hedges]
  cases hrows : (prepare_df df 1825).1.rows.map RawRow.year with
  | nil => rw [hrows] at hymem; simp at hymem
  | cons y0 ys =>
    rw [hrows] at hymem
    obtain ⟨hpair, ⟨e0, he0, he0le⟩, ⟨el, hel, hellt⟩⟩ :=
      generate_bin_edges_bounds y0 ys TimeMode.YEAR (by decide)
    have hx0 : ((e0 : Int) : Rat) ≤ (get_timestamp {year := y} : Rat) + 1 / 20 := by
      have h1 : e0 ≤ get_timestamp {year := y} := he0le y hymem
      have h2 : ((e0 : Int) : Rat) ≤ ((get_timestamp {year := y} : Int) : Rat) := by
        exact_mod_cast h1
      linarith
    have hxl : (get_timestamp {year := y} : Rat) + 1 / 20 < ((el : Int) : Rat) := by
      have h1 : get_timestamp {year := y} + 1 ≤ el := hellt y hymem
      have h2 : ((get_timestamp {year := y} : Int) : Rat) + 1 ≤ ((el : Int) : Rat) := by
        exact_mod_cast h1
      linarith
    obtain ⟨b, hb⟩ := findBin_isSome ⟨e0, he0, hx0⟩ ⟨el, hel, hxl⟩
    exact ⟨b, hb, findBin_sound hb,
      fun b' hb' => bucketMem_unique hpair hb' (findBin_sound hb)⟩

/-- Claim C3 witness: the single-row dataset with year 1900. -/
theorem spec_c3_witness :
    (1900 : Int) ∈ (DataFrame.rows
      { colValues := ["Coal"]
        rows := [{ year := 1900, vals := fun _ => (2 : Rat) }] }).map RawRow.year ∧
    (1825 : Int) < 1900 ∧
    ∃ b, findBin (runPipeline
        { colValues := ["Coal"]
          rows := [{ year := 1900, vals := fun _ => (2 : Rat) }] }).1
        ((get_timestamp {year := 1900} : Rat) + 1 / 20) = some b ∧
      bucketMem (runPipeline
        { colValues := ["Coal"]
          rows := [{ year := 1900, vals := fun _ => (2 : Rat) }] }).1 b
        ((get_timestamp {year := 1900} : Rat) + 1 / 20) ∧
      ∀ b', bucketMem (runPipeline
        { colValues := ["Coal"]
          rows := [{ year := 1900, vals := fun _ => (2 : Rat) }] }).1 b'
        ((get_timestamp {year := 1900} : Rat) + 1 / 20) → b' = b :=
  ⟨by decide, by decide, spec_c3 _ 1900 (by decide) (by decide)⟩

/-- Claim C7: the example rows at year granularity produce the edges
1900-01-01, 1901-01-01, 1902-01-01 (as UTC timestamps), a Coal series
`[10, 8]`, an Oil series `[5, 0]` and a Sum series `[15, 8]`. -/
theorem spec_c7 :
    (runPipeline exampleFrame).1
      = [get_timestamp {year := 1900}, get_timestamp {year := 1901},
         get_timestamp {year := 1902}] ∧
    (runPipeline exampleFrame).1 = [-2208988800, -2177452800, -2145916800] ∧
    List.lookup "Coal" (runPipeline exampleFrame).2 = some [10, 8] ∧
    List.lookup "Oil" (runPipeline exampleFrame).2 = some [5, 0] ∧
    List.lookup "Sum" (runPipeline exampleFrame).2 = some [15, 8] := by
  refine ⟨by decide, by decide, ?_, ?_, ?_⟩ <;>
    norm_num +decide [runPipeline, prepare_df, generate_bin_edges, calendarEdges,
      intRange, TimeMode.modeLt, TimeMode.value, get_timestamp, daysFromCivil,
      rowTS, fill_histogram, fillStep, findBin, dictSet, cleanName, pyReplace,
      replaceChars, sumColName, List.lookup, exampleFrame]

/-- Claim C8: every histogram list the stack receives from `gen_hstack`
is ordered by non-decreasing total integral. -/
theorem spec_c8 (d st : List (String × List Rat)) (lg : List (String × String))
    (h : gen_hstack d = some (st, lg)) :
    st.Pairwise (fun a b => Integral a.2 ≤ Integral b.2) := by
  unfold gen_hstack at h
  cases hlook : List.lookup "Sum" d with
  | none =>
    rw [hlook] at h
    simp at h
  | some v =>
    rw [hlook] at h
    simp only [Option.some.injEq, Prod.mk.injEq] at h
    obtain ⟨hst, _⟩ := h
    rw [← hst]
    refine List.Pairwise.sublist (List.filter_sublist _) ?_
    exact List.sorted_insertionSort integralLe d

/-- Claim C8 witness. -/
theorem spec_c8_witness :
    gen_hstack [("Sum", [3]), ("Coal", [2]), ("Oil", [1])]
      = some ([("Oil", [1]), ("Coal", [2])],
              [("Oil", "F"), ("Coal", "F"), ("Sum", "L")]) ∧
    List.Pairwise (fun a b => Integral a.2 ≤ Integral b.2)
      ([("Oil", [1]), ("Coal", [2])] : List (String × List Rat)) := by
  have h : gen_hstack [("Sum", [3]), ("Coal", [2]), ("Oil", [1])]
      = some ([("Oil", [1]), ("Coal", [2])],
              [("Oil", "F"), ("Coal", "F"), ("Sum", "L")]) := by
    norm_num +decide [gen_hstack, List.insertionSort, List.orderedInsert,
      integralLe, Integral, List.lookup]
  exact ⟨h, spec_c8 [("Sum", [3]), ("Coal", [2]), ("Oil", [1])] _ _ h⟩

/-- Claim C9: when the dictionary has a `Sum` entry, `gen_hstack` puts
every histogram except `Sum` (and no other) in the stack, gives each
stacked histogram a fill-style legend entry, and appends one line-style
legend entry for `Sum`; the `Sum` histogram itself is never stacked. -/
theorem spec_c9 (d : List (String × List Rat))
    (h : (List.lookup "Sum" d).isSome = true) :
    ∃ st lg, gen_hstack d = some (st, lg) ∧
      st.Perm (d.filter (fun p => p.1 ≠ "Sum")) ∧
      (∀ p ∈ st, p.1 ≠ "Sum") ∧
      lg = st.map (fun p => (p.1, "F")) ++ [("Sum", "L")] := by
  obtain ⟨v, hv⟩ := Option.isSome_iff_exists.mp h
  refine ⟨(List.insertionSort integralLe d).filter (fun p => p.1 ≠ "Sum"), _,
    ?_, ?_, ?_, rfl⟩
  · simp only [gen_hstack, hv]
  · exact List.Perm.filter _ (List.perm_insertionSort integralLe d)
  · intro p hp
    simpa using (List.mem_filter.mp hp).2

/-- Claim C9 witness. -/
theorem spec_c9_witness :
    ∃ st lg,
      gen_hstack [("Sum", [5]), ("Coal", [1])] = some (st, lg) ∧
      st.Perm (([("Sum", [5]), ("Coal", [1])] :
        List (String × List Rat)).filter (fun p => p.1 ≠ "Sum")) ∧
      (∀ p ∈ st, p.1 ≠ "Sum") ∧
      lg = st.map (fun p => (p.1, "F")) ++ [("Sum", "L")] :=
  spec_c9 [("Sum", [5]), ("Coal", [1])] (by decide)

lemma lookup_dictSet_self {α : Type} (d : List (String × α)) (k : String) (v : α) :
    List.lookup k (dictSet d k v) = some v := by
  induction d with
  | nil => simp [dictSet, List.lookup]
  | cons p rest ih =>
    obtain ⟨k', v'⟩ := p
    unfold dictSet
    by_cases hk : k' = k
    · rw [if_pos hk]
      simp [List.lookup]
    · rw [if_neg hk]
      have hbeq : (k == k') = false := by
        simp [Ne.symm hk]
      simp [List.lookup, hbeq, ih]

/-- Claim C10: the name cleaning maps the synthetic column `Sum(TWh)`
to exactly `Sum`, so the pipeline's dictionary always has a `Sum` key
and the `dict_h['Sum']` lookups of `gen_hstack` (and `save_plots`)
succeed: their key-error branch is unreachable. -/
theorem spec_c10 (df : DataFrame) :
    cleanName sumColName = "Sum" ∧
    (List.lookup "Sum" (runPipeline df).2).isSome = true ∧
    (gen_hstack (runPipeline df).2).isSome = true := by
  have hclean : cleanName sumColName = "Sum" := by decide
  have hstep : ∃ D v, (runPipeline df).2 = dictSet D "Sum" v := by
    simp only [runPipeline]
    rw [prepare_df_cols, List.foldl_append, List.foldl_cons, List.foldl_nil, hclean]
    exact ⟨_, _, rfl⟩
  obtain ⟨D, v, hDv⟩ := hstep
  have hlook : List.lookup "Sum" (runPipeline df).2 = some v := by
    rw [hDv]
    exact lookup_dictSet_self D "Sum" v
  refine ⟨hclean, by rw [hlook]; rfl, ?_⟩
  simp only [gen_hstack, hlook]
  rfl
